import Mathlib

/-!
# Dispatch registry of `logger.Logger` (src/logger/logger.go)

A shallow embedding of the listener registry of `Logger`: the two-level map
`Listeners : map[string]map[string]*Worker`, the operations `HasListeners`,
`HasListener`, `Listen`, `RemoveListeners`, `RemoveListener`, `Trigger`, `Write`,
`Close` and `Drain`, and sequential models of the collaborators the source only
calls (`Worker`, `Flags`, `async.Latch`, `WriteFormatter`).

Conventions.
* A Go `map[string]V` is an `AList` keyed by `String` (keys are distinct by
  construction); a nil map is `none`.  Go leaves the iteration order of `range`
  unspecified; the model iterates in list order.
* A `*Worker` is an index into `Logger.Heap`; `NewWorker` allocates the next index.
* Blocking is not represented: an operation is modelled by the state in which it
  returns.
-/

namespace logger

/-- A Go `map[string]V`. -/
abbrev GoMap (V : Type) : Type := AList (fun _ : String => V)

/-- The `context.Context` handed to `Trigger` and `Write`; the registry only passes it on. -/
abbrev Context : Type := Nat

/-- An event: its flag, a payload standing for the rest of the value, and the two
capabilities the registry asks for by type assertion.  `EnabledProvider = some b`
means the event implements `EnabledProvider` and `IsEnabled()` answers `b`;
`none` means the type assertion fails.  Likewise for `WritableProvider`. -/
structure Event where
  Flag : String
  Payload : Nat
  EnabledProvider : Option Bool
  WritableProvider : Option Bool
deriving DecidableEq, Repr

/-- Modelled from the spec: the states of `async.Latch` (not under src). -/
inductive LatchState where
  | NotStarted
  | Starting
  | Started
  | Stopping
  | Stopped
deriving DecidableEq, Repr

/-- Modelled from the spec: `async.Latch` (not under src), a lifecycle state with
one transition operation per state; each transition is idempotent. -/
structure Latch where
  state : LatchState
deriving DecidableEq, Repr

/-- Modelled from the spec: `async.NewLatch()`. -/
def NewLatch : Latch := { state := LatchState.NotStarted }

/-- Modelled from the spec: `Latch.Starting()`. -/
def Latch.Starting (_ : Latch) : Latch := { state := LatchState.Starting }

/-- Modelled from the spec: `Latch.Started()`. -/
def Latch.Started (_ : Latch) : Latch := { state := LatchState.Started }

/-- Modelled from the spec: `Latch.Stopping()`. -/
def Latch.Stopping (_ : Latch) : Latch := { state := LatchState.Stopping }

/-- Modelled from the spec: `Latch.Stopped()`. -/
def Latch.Stopped (_ : Latch) : Latch := { state := LatchState.Stopped }

/-- Modelled from the spec: the flag set `Flags` (not under src).  A mapping from
flag to enabled-boolean in which absence means disabled, under a bulk override
`all` that individual entries still refine. -/
structure Flags where
  all : Bool
  flags : GoMap Bool
deriving DecidableEq

/-- Modelled from the spec: `Flags.IsEnabled`. -/
def Flags.IsEnabled (fs : Flags) (flag : String) : Bool :=
  match fs.flags.lookup flag with
  | some b => b
  | none => fs.all

/-- Modelled from the spec: `Flags.SetNone`, the bulk operation that disables the
entire flag set. -/
def Flags.SetNone (_ : Flags) : Flags :=
  { all := false, flags := ∅ }

/-- A listener callback, identified by a number; its invocations are recorded in
`Worker.Delivered`. -/
abbrev Listener : Type := Nat

/-- Modelled from the spec: `Worker` (not under src).  It wraps one listener and
owns a latch and the FIFO queue `Work` (the channel `Trigger` sends on).
`Delivered` lists the events already handed to the listener callback, oldest
first.  `Stops` and `Drains` count the calls of `Stop()` and `Drain()` the
worker has received. -/
structure Worker where
  Latch : Latch
  Listener : Listener
  Work : List Event
  Delivered : List Event
  Stops : Nat
  Drains : Nat
deriving DecidableEq, Repr

/-- Modelled from the spec: `NewWorker(listener)`: a worker around `listener`,
not started, with an empty queue. -/
def NewWorker (listener : Listener) : Worker :=
  { Latch := NewLatch, Listener := listener, Work := [], Delivered := [],
    Stops := 0, Drains := 0 }

/-- Modelled from the spec: the worker once `go w.Start()` has run and
`<-w.NotifyStarted()` has unblocked: the latch went NotStarted, Starting, Started. -/
def Worker.Start (w : Worker) : Worker :=
  { w with Latch := w.Latch.Starting.Started }

/-- Modelled from the spec: `Submit`, in the source the channel send
`listener.Work <- e`: the event is appended to the FIFO queue. -/
def Worker.Submit (e : Event) (w : Worker) : Worker :=
  { w with Work := w.Work ++ [e] }

/-- Modelled from the spec: `Worker.Stop()` requests that the consume loop exit;
the latch goes to Stopping.  The exit itself happens on the worker's own
execution unit and is what `NotifyStopped` waits for. -/
def Worker.Stop (w : Worker) : Worker :=
  { w with Latch := w.Latch.Stopping, Stops := w.Stops + 1 }

/-- Modelled from the spec: the worker once `<-w.NotifyStopped()` has unblocked
after a `Stop()`: the consume loop delivered what was queued (no event
discarded) and the latch reached Stopped. -/
def Worker.NotifyStopped (w : Worker) : Worker :=
  { w with Latch := w.Latch.Stopped, Delivered := w.Delivered ++ w.Work, Work := [] }

/-- Modelled from the spec: `Worker.Drain()` returns once the queue, as observed
at call time, has been consumed; the worker is not stopped. -/
def Worker.Drain (w : Worker) : Worker :=
  { w with Delivered := w.Delivered ++ w.Work, Work := [], Drains := w.Drains + 1 }

/-- The worker objects allocated so far; a `*Worker` is an index into it. -/
abbrev WorkerHeap : Type := List Worker

/-- Apply a method `f` to the worker behind pointer `p`. -/
def WorkerHeap.call (h : WorkerHeap) (p : Nat) (f : Worker → Worker) : WorkerHeap :=
  match h[p]? with
  | some w => h.set p (f w)
  | none => h

/-- The interface `WriteFormatter` (declared outside src): `WriteFormat(ctx,
output, e)` writes to the sink and may return an error.  The sink is the list of
chunks written to it. -/
structure WriteFormatter where
  WriteFormat : Context → List String → Event → List String × Option String

/-- The struct `Logger`.  `Latch` is dereferenced unguarded by the source and is
taken to be present; `Flags` is nil-checked by `Close` and is optional.  `Errors`
is the channel of errors, `none` when nil, otherwise the errors sent on it.  The
embedded `*Context` plays no part in the registry and is left out.  `Heap` holds
the workers the `*Worker` values of `Listeners` point to. -/
structure Logger where
  Latch : Latch
  Flags : Option Flags
  RecoverPanics : Bool
  Output : Option (List String)
  Formatter : Option WriteFormatter
  Errors : Option (List String)
  Listeners : Option (GoMap (GoMap Nat))
  Heap : WorkerHeap

/-- The promoted method `l.IsEnabled(flag)` of the embedded `*Flags`.
Modelled from the spec: absence means disabled, so a logger without a flag set
has no enabled flag. -/
def Logger.IsEnabled (l : Logger) (flag : String) : Bool :=
  match l.Flags with
  | some fs => fs.IsEnabled flag
  | none => false

/-- The worker pointer stored at `l.Listeners[flag][listenerName]`, if any. -/
def Logger.worker? (l : Logger) (flag listenerName : String) : Option Nat :=
  match l.Listeners with
  | none => none
  | some ls =>
    match ls.lookup flag with
    | none => none
    | some workers => workers.lookup listenerName

/-- `Logger.HasListeners` (logger.go 51-63). -/
def Logger.HasListeners (l : Logger) (flag : String) : Bool :=
  match l.Listeners with
  | none => false
  | some ls =>
    match ls.lookup flag with
    | none => false
    | some listeners => decide (listeners.entries.length > 0)

/-- `Logger.HasListener` (logger.go 66-79). -/
def Logger.HasListener (l : Logger) (flag listenerName : String) : Bool :=
  match l.Listeners with
  | none => false
  | some ls =>
    match ls.lookup flag with
    | none => false
    | some workers => (workers.lookup listenerName).isSome

/-- `Logger.Listen` (logger.go 82-100).  The new worker is allocated at the end
of the heap; the inner map of the flag is updated (by value: the flag is bound
to the updated inner map) or created; the worker is started. -/
def Logger.Listen (l : Logger) (flag listenerName : String) (listener : Listener) : Logger :=
  let ls : GoMap (GoMap Nat) :=
    match l.Listeners with
    | some ls => ls
    | none => ∅
  let w : Nat := l.Heap.length
  let heap : WorkerHeap := l.Heap ++ [NewWorker listener]
  let ls' : GoMap (GoMap Nat) :=
    match ls.lookup flag with
    | some listeners => ls.insert flag (listeners.insert listenerName w)
    | none => ls.insert flag (AList.singleton listenerName w)
  { l with Listeners := some ls', Heap := heap.call w Worker.Start }

/-- `Logger.RemoveListeners` (logger.go 103-121): `Stop()` on every worker of
the flag, then the flag entry is deleted. -/
def Logger.RemoveListeners (l : Logger) (flag : String) : Logger :=
  match l.Listeners with
  | none => l
  | some ls =>
    match ls.lookup flag with
    | none => l
    | some listeners =>
      { l with
        Heap := listeners.entries.foldl (fun h kv => h.call kv.2 Worker.Stop) l.Heap,
        Listeners := some (ls.erase flag) }

/-- `Logger.RemoveListener` (logger.go 124-149): `Stop()` then the wait on
`NotifyStopped()`, then the name is deleted from the inner map, and the flag
entry too when the inner map became empty. -/
def Logger.RemoveListener (l : Logger) (flag listenerName : String) : Logger :=
  match l.Listeners with
  | none => l
  | some ls =>
    match ls.lookup flag with
    | none => l
    | some listeners =>
      match listeners.lookup listenerName with
      | none => l
      | some worker =>
        let heap : WorkerHeap := (l.Heap.call worker Worker.Stop).call worker Worker.NotifyStopped
        let listeners' : GoMap Nat := listeners.erase listenerName
        if listeners'.entries.length = 0 then
          { l with Heap := heap, Listeners := some (ls.erase flag) }
        else
          { l with Heap := heap, Listeners := some (ls.insert flag listeners') }

/-- The snapshot `Trigger` takes under the lock (logger.go 165-172): the inner
map of the flag, or the nil map, over which `range` does nothing. -/
def Logger.snapshot (l : Logger) (flag : String) : List (Sigma fun _ : String => Nat) :=
  match l.Listeners with
  | none => []
  | some ls =>
    match ls.lookup flag with
    | some flagListeners => flagListeners.entries
    | none => []

/-- `Logger.Trigger` (logger.go 155-177). -/
def Logger.Trigger (l : Logger) (_ctx : Context) (e : Event) : Logger :=
  let flag := e.Flag
  if !l.IsEnabled flag then l
  else if e.EnabledProvider = some false then l
  else
    { l with
      Heap := (l.snapshot flag).foldl (fun h kv => h.call kv.2 (Worker.Submit e)) l.Heap }

/-- `Logger.Write` (logger.go 180-191). -/
def Logger.Write (l : Logger) (ctx : Context) (e : Event) : Logger :=
  if e.WritableProvider = some false then l
  else
    match l.Formatter, l.Output with
    | some formatter, some output =>
      match formatter.WriteFormat ctx output e, l.Errors with
      | (output', some err), some errors =>
        { l with Output := some output', Errors := some (errors ++ [err]) }
      | (output', _), _ => { l with Output := some output' }
    | _, _ => l

/-- Stop a worker and wait for it: `listener.Stop(); <-listener.NotifyStopped()`. -/
def WorkerHeap.stopWait (h : WorkerHeap) (p : Nat) : WorkerHeap :=
  (h.call p Worker.Stop).call p Worker.NotifyStopped

/-- `Logger.Close` (logger.go 198-218); the second component is the returned error. -/
def Logger.Close (l : Logger) : Logger × Option String :=
  let latch := l.Latch.Stopping
  let flags := l.Flags.map Flags.SetNone
  let heap : WorkerHeap :=
    match l.Listeners with
    | none => l.Heap
    | some ls =>
      ls.entries.foldl
        (fun h listeners => listeners.2.entries.foldl (fun h' kv => h'.stopWait kv.2) h) l.Heap
  ({ l with Latch := latch.Stopped, Flags := flags, Heap := heap, Listeners := none }, none)

/-- `Logger.Drain` (logger.go 221-228); the second component is the returned error. -/
def Logger.Drain (l : Logger) : Logger × Option String :=
  let heap : WorkerHeap :=
    match l.Listeners with
    | none => l.Heap
    | some ls =>
      ls.entries.foldl
        (fun h workers => workers.2.entries.foldl (fun h' kv => h'.call kv.2 Worker.Drain) h) l.Heap
  ({ l with Heap := heap }, none)

/-- The worker behind pointer `p` is registered under `flag` by the name `name`
and by no other name of that flag (a worker is owned by one registration). -/
def Logger.SoleName (l : Logger) (flag name : String) (p : Nat) : Prop :=
  l.worker? flag name = some p ∧ ∀ m, l.worker? flag m = some p → m = name

/-- Every (name, worker) entry of the registry, flag by flag: what the nested
`range` loops of `Close` and `Drain` visit. -/
def Logger.registered (l : Logger) : List (Sigma fun _ : String => Nat) :=
  match l.Listeners with
  | none => []
  | some ls => ls.entries.flatMap (fun listeners => listeners.2.entries)

/-- A run of `Trigger` calls, one per event, in list order. -/
def Logger.TriggerAll (l : Logger) (ctx : Context) (es : List Event) : Logger :=
  es.foldl (fun l' e => l'.Trigger ctx e) l

/-- A call of one of the operations of the registry. -/
inductive Op where
  | Listen (flag listenerName : String) (listener : Listener)
  | RemoveListener (flag listenerName : String)
  | RemoveListeners (flag : String)
  | Trigger (ctx : Context) (e : Event)
  | Write (ctx : Context) (e : Event)
  | Drain
  | Close

/-- The logger after one call. -/
def Logger.apply (l : Logger) : Op → Logger
  | Op.Listen flag listenerName listener => l.Listen flag listenerName listener
  | Op.RemoveListener flag listenerName => l.RemoveListener flag listenerName
  | Op.RemoveListeners flag => l.RemoveListeners flag
  | Op.Trigger ctx e => l.Trigger ctx e
  | Op.Write ctx e => l.Write ctx e
  | Op.Drain => l.Drain.1
  | Op.Close => l.Close.1

/-- The logger after a sequence of calls, in list order. -/
def Logger.run (l : Logger) (ops : List Op) : Logger :=
  ops.foldl Logger.apply l

/-- No flag key of the registry is bound to an empty inner map. -/
def Logger.NoEmptyEntry (l : Logger) : Prop :=
  ∀ ls, l.Listeners = some ls → ∀ kv ∈ ls.entries, kv.2.entries ≠ []

/-! ## Lock discipline

Each operation is also embedded as the sequence of steps it takes on shared
state, in program order, so that what is done under `l.Lock()` can be told from
what is done outside it. -/

/-- One step of an operation.  `Lock` and `Unlock` are `l.Lock()` and
`l.Unlock()` (deferred or not); `Map` is a read, store, delete, `len` or `range`
step on `l.Listeners` or on one of its inner maps, the nil check and the
assignment of the field included; `Call` is a call on a worker (`Start`,
`Stop`, `Drain`, a channel send or receive). -/
inductive Access where
  | Lock
  | Unlock
  | Map
  | Call
deriving DecidableEq, Repr

/-- Whether every `Map` step of a sequence happens while the lock is held,
`held` telling whether it is held at the start. -/
def Access.guardedFrom : Bool → List Access → Bool
  | _, [] => true
  | _, Access.Lock :: t => Access.guardedFrom true t
  | _, Access.Unlock :: t => Access.guardedFrom false t
  | held, Access.Map :: t => held && Access.guardedFrom held t
  | held, Access.Call :: t => Access.guardedFrom held t

/-- Whether every `Map` step of an operation happens while the lock is held. -/
def Access.guarded (t : List Access) : Bool := Access.guardedFrom false t

/-- The steps of `HasListeners` (logger.go 51-63): lock, nil check, lookup of the
flag, `len`, deferred unlock. -/
def Logger.HasListenersAccesses (l : Logger) (flag : String) : List Access :=
  [Access.Lock, Access.Map]
    ++ (match l.Listeners with
        | none => []
        | some ls =>
          Access.Map ::
            (match ls.lookup flag with
             | none => []
             | some _ => [Access.Map]))
    ++ [Access.Unlock]

/-- The steps of `HasListener` (logger.go 66-79): lock, nil check, lookup of the
flag, lookup of the name, deferred unlock. -/
def Logger.HasListenerAccesses (l : Logger) (flag _listenerName : String) : List Access :=
  [Access.Lock, Access.Map]
    ++ (match l.Listeners with
        | none => []
        | some ls =>
          Access.Map ::
            (match ls.lookup flag with
             | none => []
             | some _ => [Access.Map]))
    ++ [Access.Unlock]

/-- The steps of `Listen` (logger.go 82-100): lock, nil check, `make` when nil,
lookup of the flag, store of the worker, `go w.Start()`, the wait on
`NotifyStarted()`, deferred unlock. -/
def Logger.ListenAccesses (l : Logger) : List Access :=
  [Access.Lock, Access.Map]
    ++ (match l.Listeners with
        | none => [Access.Map]
        | some _ => [])
    ++ [Access.Map, Access.Map, Access.Call, Access.Call]
    ++ [Access.Unlock]

/-- The steps of `RemoveListeners` (logger.go 103-121): lock, nil check, lookup
of the flag, per worker a `range` step and `Stop()`, the delete, deferred unlock. -/
def Logger.RemoveListenersAccesses (l : Logger) (flag : String) : List Access :=
  [Access.Lock, Access.Map]
    ++ (match l.Listeners with
        | none => []
        | some ls =>
          Access.Map ::
            (match ls.lookup flag with
             | none => []
             | some listeners =>
               listeners.entries.flatMap (fun _ => [Access.Map, Access.Call]) ++ [Access.Map]))
    ++ [Access.Unlock]

/-- The steps of `RemoveListener` (logger.go 124-149): lock, nil check, lookup of
the flag, lookup of the name, `Stop()`, the wait on `NotifyStopped()`, the
delete, `len`, the delete of the flag when empty, deferred unlock. -/
def Logger.RemoveListenerAccesses (l : Logger) (flag listenerName : String) : List Access :=
  [Access.Lock, Access.Map]
    ++ (match l.Listeners with
        | none => []
        | some ls =>
          Access.Map ::
            (match ls.lookup flag with
             | none => []
             | some listeners =>
               Access.Map ::
                 (match listeners.lookup listenerName with
                  | none => []
                  | some _ =>
                    [Access.Call, Access.Call, Access.Map, Access.Map]
                      ++ (if (listeners.erase listenerName).entries.length = 0
                          then [Access.Map] else []))))
    ++ [Access.Unlock]

/-- The steps of the lookup of `Trigger` (logger.go 165-172): lock, nil check,
lookup of the flag, unlock. -/
def Logger.TriggerLookupAccesses (l : Logger) : List Access :=
  [Access.Lock, Access.Map]
    ++ (match l.Listeners with
        | none => []
        | some _ => [Access.Map])
    ++ [Access.Unlock]

/-- The steps of `Close` (logger.go 198-218): the `range` over `l.Listeners`
with, per flag, a step and, per worker, a step, `Stop()` and the wait; the
second `range` with a step and a delete per key; the assignment of nil.  The
source takes no lock here. -/
def Logger.CloseAccesses (l : Logger) : List Access :=
  [Access.Map]
    ++ (match l.Listeners with
        | none => []
        | some ls =>
          ls.entries.flatMap (fun listeners =>
            Access.Map ::
              listeners.2.entries.flatMap (fun _ => [Access.Map, Access.Call, Access.Call])))
    ++ [Access.Map]
    ++ (match l.Listeners with
        | none => []
        | some ls => ls.entries.flatMap (fun _ => [Access.Map, Access.Map]))
    ++ [Access.Map]

/-- The steps of `Drain` (logger.go 221-228): the `range` over `l.Listeners`
with, per flag, a step and, per worker, a step and `Drain()`.  The source takes
no lock here. -/
def Logger.DrainAccesses (l : Logger) : List Access :=
  [Access.Map]
    ++ (match l.Listeners with
        | none => []
        | some ls =>
          ls.entries.flatMap (fun workers =>
            Access.Map :: workers.2.entries.flatMap (fun _ => [Access.Map, Access.Call])))

/-! ## Example states -/

/-- A plain event of flag `flag`: it implements neither capability. -/
def exampleEvent (flag : String) (payload : Nat) : Event :=
  { Flag := flag, Payload := payload, EnabledProvider := none, WritableProvider := none }

/-- An event of flag `flag` whose `IsEnabled()` answers false. -/
def vetoedEvent (flag : String) (payload : Nat) : Event :=
  { Flag := flag, Payload := payload, EnabledProvider := some false, WritableProvider := none }

/-- A formatter that writes the flag of the event and fails on payload 0. -/
def exampleFormatter : WriteFormatter :=
  { WriteFormat := fun _ output e =>
      (output ++ [e.Flag], if e.Payload = 0 then some "payload 0" else none) }

/-- A logger with no listener, where only "info" is enabled. -/
def exampleLogger : Logger :=
  { Latch := NewLatch
    Flags := some { all := false, flags := AList.singleton "info" true }
    RecoverPanics := true
    Output := some []
    Formatter := some exampleFormatter
    Errors := none
    Listeners := none
    Heap := [] }

/-- Listeners "a" and "b" under "info" and "x" under "debug"; "debug" is not enabled. -/
def exampleRegistry : Logger :=
  ((exampleLogger.Listen "info" "a" 1).Listen "info" "b" 2).Listen "debug" "x" 3

/-- The example logger with an error channel on which nothing was sent yet. -/
def exampleLoggerWithErrors : Logger :=
  { exampleLogger with Errors := some [] }

/-- The example logger whose error channel is nil (as `New` leaves it). -/
def exampleLoggerNoErrors : Logger :=
  { exampleLogger with Errors := none }

/-! ## Lemmas on the worker heap -/

theorem WorkerHeap.call_length (h : WorkerHeap) (p : Nat) (f : Worker → Worker) :
    (h.call p f).length = h.length := by
  unfold WorkerHeap.call
  cases hp : h[p]? <;> simp

theorem WorkerHeap.call_getElem? (h : WorkerHeap) (p q : Nat) (f : Worker → Worker) :
    (h.call p f)[q]? = if q = p then (h[q]?).map f else h[q]? := by
  unfold WorkerHeap.call
  cases hp : h[p]? with
  | none =>
    by_cases hq : q = p
    · subst hq; simp [hp]
    · simp [hq]
  | some w =>
    by_cases hq : q = p
    · subst hq
      have hlt : q < h.length := by
        rcases List.getElem?_eq_some_iff.mp hp with ⟨hlt, _⟩
        exact hlt
      simp [hp, List.getElem?_set, hlt]
    · have hne : p ≠ q := fun h' => hq h'.symm
      simp [hq, List.getElem?_set, hne]

/-- Calling `f` through every pointer of a list of map entries applies `f` to a
worker as many times as the worker occurs among the entries. -/
theorem WorkerHeap.foldl_call_getElem? (f : Worker → Worker)
    (es : List (Sigma fun _ : String => Nat)) (h : WorkerHeap) (q : Nat) :
    (es.foldl (fun h' kv => h'.call kv.2 f) h)[q]?
      = (h[q]?).map (f^[(es.map (fun kv => kv.2)).count q]) := by
  induction es generalizing h with
  | nil => simp
  | cons kv tl ih =>
    simp only [List.foldl_cons, List.map_cons]
    rw [ih, WorkerHeap.call_getElem?]
    by_cases hq : q = kv.2
    · subst hq
      simp only [if_true, List.count_cons_self, Function.iterate_succ, Option.map_map]
    · have hne : kv.2 ≠ q := fun h' => hq h'.symm
      simp [hq, List.count_cons_of_ne hne]

/-! ## Lemmas on the registry -/

theorem Logger.snapshot_nodupKeys (l : Logger) (flag : String) :
    (l.snapshot flag).NodupKeys := by
  unfold Logger.snapshot
  split
  · exact List.nodupKeys_nil
  · split
    · rename_i inner _
      exact inner.nodupKeys
    · exact List.nodupKeys_nil

theorem Logger.worker?_iff_mem_snapshot (l : Logger) (flag name : String) (p : Nat) :
    l.worker? flag name = some p ↔ (⟨name, p⟩ : Sigma fun _ : String => Nat) ∈ l.snapshot flag := by
  unfold Logger.worker? Logger.snapshot
  cases hL : l.Listeners with
  | none => simp
  | some ls =>
    cases hF : ls.lookup flag with
    | none => simp [hF]
    | some inner =>
      simp only [hF]
      rw [← AList.mem_lookup_iff]
      simp [Option.mem_def]

/-- In a list of entries with distinct keys, a value bound to exactly one key
occurs once among the values. -/
theorem count_snd_eq_one (es : List (Sigma fun _ : String => Nat)) (n : String) (p : Nat)
    (hnd : es.NodupKeys) (hmem : (⟨n, p⟩ : Sigma fun _ : String => Nat) ∈ es)
    (huniq : ∀ m, (⟨m, p⟩ : Sigma fun _ : String => Nat) ∈ es → m = n) :
    (es.map (fun kv => kv.2)).count p = 1 := by
  induction es with
  | nil => simp at hmem
  | cons kv tl ih =>
    rw [List.nodupKeys_cons] at hnd
    obtain ⟨hkey, hnd'⟩ := hnd
    by_cases hkv : kv = ⟨n, p⟩
    · subst hkv
      have hzero : (tl.map (fun kv => kv.2)).count p = 0 := by
        rw [List.count_eq_zero]
        intro hin
        rcases List.mem_map.mp hin with ⟨kv', hkv', hp⟩
        have hm : kv'.1 = n := by
          apply huniq
          have : kv' = ⟨kv'.1, p⟩ := by cases kv'; simp at hp; simp [hp]
          rw [← this]
          exact List.mem_cons_of_mem _ hkv'
        apply hkey
        rw [List.mem_keys]
        exact ⟨kv'.2, by rw [← hm]; exact hkv'⟩
      simp [hzero]
    · have hmem' : (⟨n, p⟩ : Sigma fun _ : String => Nat) ∈ tl := by
        rcases List.mem_cons.mp hmem with h | h
        · exact absurd h.symm hkv
        · exact h
      have hne : kv.2 ≠ p := by
        intro hp
        apply hkv
        have hk : kv.1 = n := by
          apply huniq
          have : kv = ⟨kv.1, p⟩ := by cases kv; simp at hp; simp [hp]
          rw [← this]
          exact List.mem_cons_self _ _
        cases kv
        simp at hp hk
        simp [hp, hk]
      have hih := ih hnd' hmem' (fun m hm => huniq m (List.mem_cons_of_mem _ hm))
      simp [List.count_cons, hne, hih]

/-- A pointer bound to no key does not occur among the values. -/
theorem count_snd_eq_zero (es : List (Sigma fun _ : String => Nat)) (p : Nat)
    (hnone : ∀ m, (⟨m, p⟩ : Sigma fun _ : String => Nat) ∉ es) :
    (es.map (fun kv => kv.2)).count p = 0 := by
  rw [List.count_eq_zero]
  intro hin
  rcases List.mem_map.mp hin with ⟨kv, hkv, hp⟩
  apply hnone kv.1
  have : kv = ⟨kv.1, p⟩ := by cases kv; simp at hp; simp [hp]
  rw [← this]
  exact hkv

/-- What one `Trigger` that passes both gates does to the worker behind `q`. -/
theorem Logger.Trigger_heap (l : Logger) (ctx : Context) (e : Event)
    (hen : l.IsEnabled e.Flag = true) (hveto : e.EnabledProvider ≠ some false) (q : Nat) :
    (l.Trigger ctx e).Heap[q]?
      = (l.Heap[q]?).map
          ((Worker.Submit e)^[((l.snapshot e.Flag).map (fun kv => kv.2)).count q]) := by
  unfold Logger.Trigger
  simp only [hen, hveto, Bool.not_true, if_false, Bool.false_eq_true]
  exact WorkerHeap.foldl_call_getElem? _ _ _ _

theorem Logger.Trigger_frame (l : Logger) (ctx : Context) (e : Event) :
    (l.Trigger ctx e).Listeners = l.Listeners ∧ (l.Trigger ctx e).Flags = l.Flags
      ∧ (l.Trigger ctx e).Latch = l.Latch ∧ (l.Trigger ctx e).Output = l.Output
      ∧ (l.Trigger ctx e).Errors = l.Errors := by
  by_cases h1 : l.IsEnabled e.Flag = true <;> by_cases h2 : e.EnabledProvider = some false <;>
    simp [Logger.Trigger, h1, h2]

theorem Logger.IsEnabled_congr (l l' : Logger) (h : l'.Flags = l.Flags) (flag : String) :
    l'.IsEnabled flag = l.IsEnabled flag := by
  unfold Logger.IsEnabled
  rw [h]

theorem Logger.worker?_congr (l l' : Logger) (h : l'.Listeners = l.Listeners)
    (flag name : String) : l'.worker? flag name = l.worker? flag name := by
  unfold Logger.worker?
  rw [h]

theorem Logger.snapshot_congr (l l' : Logger) (h : l'.Listeners = l.Listeners)
    (flag : String) : l'.snapshot flag = l.snapshot flag := by
  unfold Logger.snapshot
  rw [h]

/-- Distinct pointers under a flag make every registration of the flag a sole name. -/
theorem Logger.SoleName_of_nodup (l : Logger) (flag name : String) (p : Nat)
    (hnd : ((l.snapshot flag).map (fun kv => kv.2)).Nodup)
    (hreg : l.worker? flag name = some p) : l.SoleName flag name p := by
  refine ⟨hreg, ?_⟩
  intro m hm
  rw [Logger.worker?_iff_mem_snapshot] at hreg hm
  have := List.inj_on_of_nodup_map hnd hm hreg rfl
  simpa using this

theorem Logger.SoleName_count (l : Logger) (flag name : String) (p : Nat)
    (h : l.SoleName flag name p) :
    ((l.snapshot flag).map (fun kv => kv.2)).count p = 1 := by
  apply count_snd_eq_one _ name p (l.snapshot_nodupKeys flag)
  · exact (l.worker?_iff_mem_snapshot flag name p).mp h.1
  · intro m hm
    exact h.2 m ((l.worker?_iff_mem_snapshot flag m p).mpr hm)

theorem Logger.snapshot_eq_nil_of_not_HasListeners (l : Logger) (flag : String)
    (h : l.HasListeners flag = false) : l.snapshot flag = [] := by
  unfold Logger.HasListeners at h
  unfold Logger.snapshot
  cases hL : l.Listeners with
  | none => rfl
  | some ls =>
    cases hF : ls.lookup flag with
    | none => simp [hF]
    | some inner =>
      simp only [hL, hF] at h
      simp only [hF]
      simpa using h

/-! ## Trigger -/

/-- C1: when the flag of the event is not enabled in the flag set, or the event
implements the enabled-override and it answers false, `Trigger` returns the
logger it was given: no worker queue changes and the registry is the same,
whatever is registered under the flag. -/
theorem Trigger_gated_is_noop (l : Logger) (ctx : Context) (e : Event)
    (h : l.IsEnabled e.Flag = false ∨ e.EnabledProvider = some false) :
    l.Trigger ctx e = l := by
  unfold Logger.Trigger
  rcases h with h | h
  · simp [h]
  · simp [h]

/-- C1 at the example registry: "debug" has the listener "x" and is not enabled. -/
theorem Trigger_gated_is_noop_witness :
    exampleRegistry.HasListener "debug" "x" = true
      ∧ exampleRegistry.IsEnabled (exampleEvent "debug" 1).Flag = false
      ∧ exampleRegistry.Trigger 0 (exampleEvent "debug" 1) = exampleRegistry :=
  ⟨by decide, by decide,
    Trigger_gated_is_noop exampleRegistry 0 (exampleEvent "debug" 1) (Or.inl (by decide))⟩

/-- C2: for an event whose flag F is enabled and which its enabled-override does
not veto, `Trigger` leaves the registry as it is, appends the event once to the
queue of each worker registered under F (under one name), touches no worker that
is not registered under F, and changes nothing at all when F has no listener. -/
theorem Trigger_fans_out_once (l : Logger) (ctx : Context) (e : Event)
    (hen : l.IsEnabled e.Flag = true) (hveto : e.EnabledProvider ≠ some false) :
    (l.Trigger ctx e).Listeners = l.Listeners
      ∧ (∀ name p w, l.SoleName e.Flag name p → l.Heap[p]? = some w →
          (l.Trigger ctx e).Heap[p]? = some { w with Work := w.Work ++ [e] })
      ∧ (∀ p, (∀ name, l.worker? e.Flag name ≠ some p) →
          (l.Trigger ctx e).Heap[p]? = l.Heap[p]?)
      ∧ (l.HasListeners e.Flag = false → l.Trigger ctx e = l) := by
  refine ⟨(l.Trigger_frame ctx e).1, ?_, ?_, ?_⟩
  · intro name p w hsole hw
    rw [Logger.Trigger_heap l ctx e hen hveto, l.SoleName_count e.Flag name p hsole, hw]
    rfl
  · intro p hp
    rw [Logger.Trigger_heap l ctx e hen hveto]
    have hzero : ((l.snapshot e.Flag).map (fun kv => kv.2)).count p = 0 := by
      apply count_snd_eq_zero
      intro m hm
      exact hp m ((l.worker?_iff_mem_snapshot e.Flag m p).mpr hm)
    rw [hzero]
    cases l.Heap[p]? <;> rfl
  · intro hnone
    unfold Logger.Trigger
    simp [hen, hveto, l.snapshot_eq_nil_of_not_HasListeners e.Flag hnone]

/-- C2 at the example registry: one "info" event reaches the worker of "a". -/
theorem Trigger_fans_out_once_witness :
    exampleRegistry.IsEnabled (exampleEvent "info" 7).Flag = true
      ∧ (exampleEvent "info" 7).EnabledProvider ≠ some false
      ∧ (exampleRegistry.Trigger 0 (exampleEvent "info" 7)).Heap[0]?
          = some { (NewWorker 1).Start with Work := [exampleEvent "info" 7] } :=
  ⟨by decide, by decide,
    (Trigger_fans_out_once exampleRegistry 0 (exampleEvent "info" 7) (by decide) (by decide)).2.1
      "a" 0 (NewWorker 1).Start
      (Logger.SoleName_of_nodup exampleRegistry "info" "a" 0 (by decide) (by decide))
      (by decide)⟩

/-- C3 as stated fails: "info" is enabled and "a" is registered under it, yet an
"info" event whose enabled-override answers false is not appended to the queue
of the worker of "a". -/
theorem TriggerAll_vetoed_event_not_queued :
    exampleRegistry.IsEnabled "info" = true
      ∧ exampleRegistry.worker? "info" "a" = some 0
      ∧ (vetoedEvent "info" 1).Flag = "info"
      ∧ ((exampleRegistry.TriggerAll 0 [vetoedEvent "info" 1]).Heap[0]?).map Worker.Work
          ≠ (exampleRegistry.Heap[0]?).map (fun w => w.Work ++ [vetoedEvent "info" 1]) := by
  decide

/-- C3, amended: for a listener registered under an enabled flag F and a
sequence of events of flag F none of which is vetoed by its enabled-override,
triggering them in order leaves the worker with its queue followed by exactly
those events in that order, and otherwise as it was. -/
theorem TriggerAll_fifo (l : Logger) (ctx : Context) (flag name : String) (p : Nat)
    (w : Worker) (es : List Event)
    (hen : l.IsEnabled flag = true) (hreg : l.SoleName flag name p)
    (hw : l.Heap[p]? = some w)
    (hflag : ∀ e ∈ es, e.Flag = flag)
    (hveto : ∀ e ∈ es, e.EnabledProvider ≠ some false) :
    (l.TriggerAll ctx es).Heap[p]? = some { w with Work := w.Work ++ es } := by
  induction es generalizing l w with
  | nil => simpa [Logger.TriggerAll] using hw
  | cons e tl ih =>
    have hf : e.Flag = flag := hflag e (List.mem_cons_self _ _)
    have hv : e.EnabledProvider ≠ some false := hveto e (List.mem_cons_self _ _)
    have hframe := l.Trigger_frame ctx e
    have hen' : (l.Trigger ctx e).IsEnabled flag = true := by
      rw [Logger.IsEnabled_congr l _ hframe.2.1]; exact hen
    have hreg' : (l.Trigger ctx e).SoleName flag name p := by
      refine ⟨?_, ?_⟩
      · rw [Logger.worker?_congr l _ hframe.1]; exact hreg.1
      · intro m hm
        rw [Logger.worker?_congr l _ hframe.1] at hm
        exact hreg.2 m hm
    have hw' : (l.Trigger ctx e).Heap[p]? = some (w.Submit e) := by
      have hen0 : l.IsEnabled e.Flag = true := by rw [hf]; exact hen
      rw [Logger.Trigger_heap l ctx e hen0 hv, hf, l.SoleName_count flag name p hreg, hw]
      rfl
    have hstep := ih (l.Trigger ctx e) (w.Submit e) hen' hreg' hw'
      (fun e' he' => hflag e' (List.mem_cons_of_mem _ he'))
      (fun e' he' => hveto e' (List.mem_cons_of_mem _ he'))
    have hrun : l.TriggerAll ctx (e :: tl) = (l.Trigger ctx e).TriggerAll ctx tl := rfl
    rw [hrun, hstep]
    simp [Worker.Submit]

/-- C3, amended, at the example registry: three "info" events reach the worker
of "a" in the order they were triggered. -/
theorem TriggerAll_fifo_witness :
    exampleRegistry.IsEnabled "info" = true
      ∧ ((exampleRegistry.TriggerAll 0
            [exampleEvent "info" 1, exampleEvent "info" 2, exampleEvent "info" 3]).Heap[0]?).map
          Worker.Work
        = some [exampleEvent "info" 1, exampleEvent "info" 2, exampleEvent "info" 3] :=
  ⟨by decide, by
    rw [TriggerAll_fifo exampleRegistry 0 "info" "a" 0 (NewWorker 1).Start
      [exampleEvent "info" 1, exampleEvent "info" 2, exampleEvent "info" 3]
      (by decide)
      (Logger.SoleName_of_nodup exampleRegistry "info" "a" 0 (by decide) (by decide))
      (by decide) (by decide) (by decide)]
    rfl⟩

/-! ## RemoveListener -/

theorem Logger.HasListener_eq_worker? (l : Logger) (flag name : String) :
    l.HasListener flag name = (l.worker? flag name).isSome := by
  unfold Logger.HasListener Logger.worker?
  cases hL : l.Listeners with
  | none => rfl
  | some ls =>
    cases hF : ls.lookup flag with
    | none => simp [hF]
    | some inner => simp [hF]

theorem AList.lookup_eq_none_of_entries_length (m : GoMap Nat) (k : String)
    (h : m.entries.length = 0) : m.lookup k = none := by
  rw [AList.lookup_eq_none, AList.mem_keys, AList.keys]
  have : m.entries = [] := List.length_eq_zero.mp h
  simp [this]

/-- The registry after `RemoveListener`: the pair is gone, every other pair is as before. -/
theorem Logger.RemoveListener_worker? (l : Logger) (flag name g m : String) :
    (l.RemoveListener flag name).worker? g m
      = if g = flag ∧ m = name then none else l.worker? g m := by
  unfold Logger.RemoveListener
  cases hL : l.Listeners with
  | none => simp [Logger.worker?, hL]
  | some ls =>
    cases hF : ls.lookup flag with
    | none =>
      simp only [hF]
      split_ifs with hc
      · obtain ⟨rfl, rfl⟩ := hc
        simp [Logger.worker?, hL, hF]
      · rfl
    | some inner =>
      cases hN : inner.lookup name with
      | none =>
        simp only [hF, hN]
        split_ifs with hc
        · obtain ⟨rfl, rfl⟩ := hc
          simp [Logger.worker?, hL, hF, hN]
        · rfl
      | some worker =>
        simp only [hF, hN]
        by_cases hlen : (inner.erase name).entries.length = 0
        · simp only [hlen, if_true]
          by_cases hg : g = flag
          · subst hg
            have hnone : ∀ k, k ≠ name → inner.lookup k = none := by
              intro k hk
              rw [← AList.lookup_erase_ne hk]
              exact AList.lookup_eq_none_of_entries_length _ _ hlen
            by_cases hm : m = name
            · simp [Logger.worker?, hm, AList.lookup_erase]
            · simp [Logger.worker?, hm, AList.lookup_erase, hL, hF, hnone m hm]
          · simp [Logger.worker?, hg, AList.lookup_erase_ne hg, hL]
        · simp only [hlen, if_false]
          by_cases hg : g = flag
          · subst hg
            by_cases hm : m = name
            · subst hm
              simp [Logger.worker?, AList.lookup_insert, AList.lookup_erase]
            · simp [Logger.worker?, hm, AList.lookup_insert, AList.lookup_erase_ne hm, hL, hF]
          · simp [Logger.worker?, hg, AList.lookup_insert_ne hg, hL]

/-- The heap after `RemoveListener` of a registered pair: its worker was stopped and awaited. -/
theorem Logger.RemoveListener_heap (l : Logger) (flag name : String) (p : Nat)
    (hreg : l.worker? flag name = some p) :
    (l.RemoveListener flag name).Heap = l.Heap.stopWait p := by
  unfold Logger.worker? at hreg
  unfold Logger.RemoveListener
  cases hL : l.Listeners with
  | none => simp [hL] at hreg
  | some ls =>
    cases hF : ls.lookup flag with
    | none => simp [hL, hF] at hreg
    | some inner =>
      simp only [hL, hF] at hreg
      simp only [hF, hreg]
      split <;> rfl

theorem Logger.RemoveListener_frame (l : Logger) (flag name : String) :
    (l.RemoveListener flag name).Flags = l.Flags := by
  unfold Logger.RemoveListener
  repeat' split
  all_goals first | rfl | (dsimp only; split <;> rfl)

theorem WorkerHeap.stopWait_getElem? (h : WorkerHeap) (p q : Nat) :
    (h.stopWait p)[q]? = if q = p then (h[q]?).map (fun w => w.Stop.NotifyStopped) else h[q]? := by
  unfold WorkerHeap.stopWait
  rw [WorkerHeap.call_getElem?, WorkerHeap.call_getElem?]
  by_cases hq : q = p
  · simp [hq, Option.map_map, Function.comp_def]
  · simp [hq]

/-- C4: removing a pair that is not registered returns the logger it was given,
the nil registry included: no worker is stopped and every query answers as before. -/
theorem RemoveListener_missing_is_noop (l : Logger) (flag name : String)
    (h : l.HasListener flag name = false) :
    l.RemoveListener flag name = l := by
  unfold Logger.HasListener at h
  unfold Logger.RemoveListener
  cases hL : l.Listeners with
  | none => rfl
  | some ls =>
    cases hF : ls.lookup flag with
    | none => simp [hF]
    | some inner =>
      simp only [hL, hF] at h
      cases hN : inner.lookup name with
      | none => simp [hF, hN]
      | some worker => simp [hN] at h

/-- C4 at the example registry, where "info" has no listener named "missing". -/
theorem RemoveListener_missing_is_noop_witness :
    exampleRegistry.HasListener "info" "missing" = false
      ∧ exampleRegistry.RemoveListener "info" "missing" = exampleRegistry :=
  ⟨by decide, RemoveListener_missing_is_noop exampleRegistry "info" "missing" (by decide)⟩

/-- C5: removing a registered pair stops its worker and waits for it (the latch
is Stopped and what was queued has been delivered), makes `HasListener` false
for the pair, leaves every other registration and every other worker as they
were, and a `Trigger` of an event of that flag that follows, enabled or not,
leaves the removed worker untouched. -/
theorem RemoveListener_stops_and_unregisters (l : Logger) (flag name : String) (p : Nat)
    (w : Worker) (hreg : l.SoleName flag name p) (hw : l.Heap[p]? = some w) :
    (l.RemoveListener flag name).Heap[p]? = some w.Stop.NotifyStopped
      ∧ w.Stop.NotifyStopped.Latch.state = LatchState.Stopped
      ∧ (l.RemoveListener flag name).HasListener flag name = false
      ∧ (∀ g m, ¬ (g = flag ∧ m = name) →
          (l.RemoveListener flag name).worker? g m = l.worker? g m)
      ∧ (∀ q, q ≠ p → (l.RemoveListener flag name).Heap[q]? = l.Heap[q]?)
      ∧ (∀ ctx e, e.Flag = flag →
          ((l.RemoveListener flag name).Trigger ctx e).Heap[p]?
            = (l.RemoveListener flag name).Heap[p]?) := by
  have hheap := l.RemoveListener_heap flag name p hreg.1
  refine ⟨?_, rfl, ?_, ?_, ?_, ?_⟩
  · rw [hheap, WorkerHeap.stopWait_getElem?, hw]; simp
  · rw [Logger.HasListener_eq_worker?, Logger.RemoveListener_worker?]; simp
  · intro g m hgm
    rw [Logger.RemoveListener_worker?, if_neg hgm]
  · intro q hq
    rw [hheap, WorkerHeap.stopWait_getElem?, if_neg hq]
  · intro ctx e he
    by_cases hgate : (l.RemoveListener flag name).IsEnabled e.Flag = true
        ∧ e.EnabledProvider ≠ some false
    · rw [Logger.Trigger_heap _ ctx e hgate.1 hgate.2]
      have hzero : (((l.RemoveListener flag name).snapshot e.Flag).map
          (fun kv => kv.2)).count p = 0 := by
        apply count_snd_eq_zero
        intro m hm
        rw [← Logger.worker?_iff_mem_snapshot, Logger.RemoveListener_worker?, he] at hm
        by_cases hmn : m = name
        · simp [hmn] at hm
        · have hm' : l.worker? flag m = some p := by simpa [hmn] using hm
          exact hmn (hreg.2 m hm')
      rw [hzero]
      cases (l.RemoveListener flag name).Heap[p]? <;> rfl
    · have hnoop : (l.RemoveListener flag name).Trigger ctx e = l.RemoveListener flag name := by
        unfold Logger.Trigger
        by_cases h1 : (l.RemoveListener flag name).IsEnabled e.Flag = true
        · have h2 : e.EnabledProvider = some false := by
            by_contra h2
            exact hgate ⟨h1, h2⟩
          simp [h1, h2]
        · simp [h1]
      rw [hnoop]

/-- C5 at the example registry: removing ("info", "a") stops worker 0, and an
enabled "info" event triggered afterwards does not reach it. -/
theorem RemoveListener_stops_and_unregisters_witness :
    exampleRegistry.IsEnabled "info" = true
      ∧ (((exampleRegistry.RemoveListener "info" "a").Trigger 0
            (exampleEvent "info" 9)).Heap[0]?).map Worker.Work = some []
      ∧ (exampleRegistry.RemoveListener "info" "a").HasListener "info" "a" = false :=
  ⟨by decide, by decide,
    (RemoveListener_stops_and_unregisters exampleRegistry "info" "a" 0 (NewWorker 1).Start
      (Logger.SoleName_of_nodup exampleRegistry "info" "a" 0 (by decide) (by decide))
      (by decide)).2.2.1⟩

/-! ## Listen -/

theorem Logger.HasListeners_of_worker? (l : Logger) (flag name : String) (p : Nat)
    (h : l.worker? flag name = some p) : l.HasListeners flag = true := by
  unfold Logger.worker? at h
  unfold Logger.HasListeners
  cases hL : l.Listeners with
  | none => simp [hL] at h
  | some ls =>
    cases hF : ls.lookup flag with
    | none => simp [hL, hF] at h
    | some inner =>
      simp only [hL, hF] at h
      simp only [hF, decide_eq_true_eq]
      by_contra hlen
      have hzero : inner.entries.length = 0 := by omega
      rw [AList.lookup_eq_none_of_entries_length inner name hzero] at h
      exact Option.noConfusion h

theorem Logger.Listen_listeners (l : Logger) (flag name : String) (listener : Listener) :
    (l.Listen flag name listener).Listeners
      = some (AList.insert flag
          (AList.insert name l.Heap.length (((l.Listeners.getD ∅).lookup flag).getD ∅))
          (l.Listeners.getD ∅)) := by
  unfold Logger.Listen
  cases hL : l.Listeners with
  | none => simp [AList.insert_empty]
  | some ls =>
    cases hF : ls.lookup flag with
    | none => simp [hF, AList.insert_empty]
    | some inner => simp [hF]

theorem Logger.worker?_eq_getD (l : Logger) (flag name : String) :
    l.worker? flag name = (((l.Listeners.getD ∅).lookup flag).getD ∅).lookup name := by
  unfold Logger.worker?
  cases hL : l.Listeners with
  | none => simp
  | some ls =>
    cases hF : ls.lookup flag with
    | none => simp [hF]
    | some inner => simp [hF]

/-- The registry after `Listen`: the pair points to the new worker, every other
pair is as before. -/
theorem Logger.Listen_worker? (l : Logger) (flag name : String) (listener : Listener)
    (g m : String) :
    (l.Listen flag name listener).worker? g m
      = if g = flag ∧ m = name then some l.Heap.length else l.worker? g m := by
  rw [Logger.worker?_eq_getD l g m, Logger.worker?_eq_getD, Logger.Listen_listeners]
  by_cases hg : g = flag
  · subst hg
    by_cases hm : m = name
    · subst hm
      simp [AList.lookup_insert]
    · simp [AList.lookup_insert, AList.lookup_insert_ne hm, hm]
  · simp [AList.lookup_insert_ne hg, hg]

/-- The heap after `Listen`: the started new worker is appended. -/
theorem Logger.Listen_heap (l : Logger) (flag name : String) (listener : Listener) :
    (l.Listen flag name listener).Heap = l.Heap ++ [(NewWorker listener).Start] := by
  unfold Logger.Listen
  simp [WorkerHeap.call]

/-- C6: after `Listen(F, n, listener)`, the nil registry included, `HasListener(F, n)`
and `HasListeners(F)` are true, the pair points to a worker that did not exist
before, built by `NewWorker` around that listener and started, and every other
registration and every worker that existed is as before. -/
theorem Listen_registers_started_worker (l : Logger) (flag name : String)
    (listener : Listener) :
    (l.Listen flag name listener).HasListener flag name = true
      ∧ (l.Listen flag name listener).HasListeners flag = true
      ∧ (l.Listen flag name listener).worker? flag name = some l.Heap.length
      ∧ l.Heap[l.Heap.length]? = none
      ∧ (l.Listen flag name listener).Heap[l.Heap.length]? = some (NewWorker listener).Start
      ∧ (NewWorker listener).Start.Listener = listener
      ∧ (NewWorker listener).Start.Latch.state = LatchState.Started
      ∧ (∀ g m, ¬ (g = flag ∧ m = name) →
          (l.Listen flag name listener).worker? g m = l.worker? g m)
      ∧ (∀ (q : Nat) (w : Worker), l.Heap[q]? = some w →
          (l.Listen flag name listener).Heap[q]? = some w) := by
  have hreg : (l.Listen flag name listener).worker? flag name = some l.Heap.length := by
    rw [Logger.Listen_worker?]; simp
  refine ⟨?_, ?_, hreg, ?_, ?_, rfl, rfl, ?_, ?_⟩
  · rw [Logger.HasListener_eq_worker?, hreg]; rfl
  · exact Logger.HasListeners_of_worker? _ _ _ _ hreg
  · simp
  · rw [Logger.Listen_heap]; simp
  · intro g m hgm
    rw [Logger.Listen_worker?, if_neg hgm]
  · intro q w hq
    rw [Logger.Listen_heap]
    have hlt : q < l.Heap.length := (List.getElem?_eq_some_iff.mp hq).1
    rw [List.getElem?_append_left hlt]
    exact hq

/-! ## Close -/

theorem WorkerHeap.stopWait_eq_call (h : WorkerHeap) (p : Nat) :
    h.stopWait p = h.call p (fun w => w.Stop.NotifyStopped) := by
  apply List.ext_getElem?
  intro q
  rw [WorkerHeap.stopWait_getElem?, WorkerHeap.call_getElem?]

/-- The nested loops over flags and names are one loop over all entries. -/
theorem WorkerHeap.foldl_nested (f : Worker → Worker)
    (ls : List (Sigma fun _ : String => GoMap Nat)) (h : WorkerHeap) :
    ls.foldl (fun h' listeners =>
        listeners.2.entries.foldl (fun h'' kv => h''.call kv.2 f) h') h
      = (ls.flatMap (fun listeners => listeners.2.entries)).foldl
          (fun h' kv => h'.call kv.2 f) h := by
  induction ls generalizing h with
  | nil => rfl
  | cons kv tl ih =>
    simp only [List.foldl_cons, List.flatMap_cons, List.foldl_append]
    exact ih _

theorem Logger.worker?_mem_registered (l : Logger) (flag name : String) (p : Nat)
    (h : l.worker? flag name = some p) :
    (⟨name, p⟩ : Sigma fun _ : String => Nat) ∈ l.registered := by
  unfold Logger.worker? at h
  unfold Logger.registered
  cases hL : l.Listeners with
  | none => simp [hL] at h
  | some ls =>
    cases hF : ls.lookup flag with
    | none => simp [hL, hF] at h
    | some inner =>
      simp only [hL, hF] at h
      simp only [List.mem_flatMap]
      refine ⟨⟨flag, inner⟩, ?_, ?_⟩
      · exact AList.mem_lookup_iff.mp (by simp [Option.mem_def, hF])
      · exact AList.mem_lookup_iff.mp (by simp [Option.mem_def, h])

/-- The heap after `Close`: every worker was stopped and awaited once per entry
of the registry that points to it. -/
theorem Logger.Close_heap (l : Logger) (q : Nat) :
    l.Close.1.Heap[q]?
      = (l.Heap[q]?).map
          ((fun w => w.Stop.NotifyStopped)^[(l.registered.map (fun kv => kv.2)).count q]) := by
  unfold Logger.Close Logger.registered
  cases hL : l.Listeners with
  | none => simp
  | some ls =>
    simp only
    have hfun : (fun (h : WorkerHeap) (listeners : Sigma fun _ : String => GoMap Nat) =>
          listeners.2.entries.foldl (fun h' kv => h'.stopWait kv.2) h)
        = (fun h listeners =>
          listeners.2.entries.foldl
            (fun h' kv => h'.call kv.2 (fun w => w.Stop.NotifyStopped)) h) := by
      funext h listeners
      congr 1
      funext h' kv
      exact WorkerHeap.stopWait_eq_call h' kv.2
    rw [hfun, WorkerHeap.foldl_nested, WorkerHeap.foldl_call_getElem?]

theorem Worker.iterate_stopWait (w : Worker) (k : Nat) :
    ((fun w => w.Stop.NotifyStopped)^[k + 1] w).Latch.state = LatchState.Stopped
      ∧ ((fun w => w.Stop.NotifyStopped)^[k + 1] w).Work = []
      ∧ ((fun w => w.Stop.NotifyStopped)^[k + 1] w).Stops
          = ((fun w => w.Stop.NotifyStopped)^[k] w).Stops + 1 := by
  rw [Function.iterate_succ_apply']
  exact ⟨rfl, rfl, rfl⟩

theorem Worker.iterate_stopWait_stops (w : Worker) (k : Nat) :
    ((fun w => w.Stop.NotifyStopped)^[k] w).Stops = w.Stops + k := by
  induction k with
  | zero => rfl
  | succ k ih =>
    rw [(Worker.iterate_stopWait w k).2.2, ih]
    omega

/-- C7: after `Close` every worker that was registered has received `Stop` and
has been awaited (its latch is Stopped and its queue is empty), the registry is
the nil map so that `HasListeners` and `HasListener` are false everywhere, no
flag is enabled, the latch of the logger is Stopped and the error returned is nil. -/
theorem Close_stops_and_clears (l : Logger) :
    (∀ (flag name : String) (p : Nat) (w : Worker),
        l.worker? flag name = some p → l.Heap[p]? = some w →
        ∃ w', l.Close.1.Heap[p]? = some w' ∧ w'.Latch.state = LatchState.Stopped
          ∧ w'.Work = [] ∧ w.Stops < w'.Stops)
      ∧ l.Close.1.Listeners = none
      ∧ (∀ flag, l.Close.1.HasListeners flag = false)
      ∧ (∀ flag name, l.Close.1.HasListener flag name = false)
      ∧ (∀ flag, l.Close.1.IsEnabled flag = false)
      ∧ l.Close.1.Latch.state = LatchState.Stopped
      ∧ l.Close.2 = none := by
  refine ⟨?_, rfl, fun _ => rfl, fun _ _ => rfl, ?_, rfl, rfl⟩
  · intro flag name p w hreg hw
    have hmem : p ∈ l.registered.map (fun kv => kv.2) :=
      List.mem_map.mpr ⟨⟨name, p⟩, l.worker?_mem_registered flag name p hreg, rfl⟩
    have hpos : 0 < (l.registered.map (fun kv => kv.2)).count p := List.count_pos_iff.mpr hmem
    obtain ⟨k, hk⟩ : ∃ k, (l.registered.map (fun kv => kv.2)).count p = k + 1 :=
      ⟨(l.registered.map (fun kv => kv.2)).count p - 1, by omega⟩
    refine ⟨(fun w => w.Stop.NotifyStopped)^[k + 1] w, ?_, ?_, ?_, ?_⟩
    · rw [Logger.Close_heap, hk, hw]; rfl
    · exact (Worker.iterate_stopWait w k).1
    · exact (Worker.iterate_stopWait w k).2.1
    · rw [Worker.iterate_stopWait_stops]; omega
  · intro flag
    unfold Logger.IsEnabled Logger.Close
    cases hFl : l.Flags with
    | none => rfl
    | some fs => simp [Flags.SetNone, Flags.IsEnabled]

/-- C7 at the example registry: the worker of ("info", "a") ends Stopped. -/
theorem Close_stops_and_clears_witness :
    exampleRegistry.worker? "info" "a" = some 0
      ∧ ∃ w', exampleRegistry.Close.1.Heap[0]? = some w'
          ∧ w'.Latch.state = LatchState.Stopped ∧ w'.Work = []
          ∧ (NewWorker 1).Start.Stops < w'.Stops :=
  ⟨by decide,
    (Close_stops_and_clears exampleRegistry).1 "info" "a" 0 (NewWorker 1).Start
      (by decide) (by decide)⟩

/-- C8: a second `Close` right after a first returns a nil error and the very
state the first one left: no worker receives another `Stop` (the heap, with its
count of `Stop` calls per worker, is the same). -/
theorem Close_idempotent (l : Logger) :
    l.Close.1.Close = (l.Close.1, none)
      ∧ l.Close.1.Close.1.Heap = l.Close.1.Heap
      ∧ l.Close.1.Close.2 = none := by
  have h : l.Close.1.Close = (l.Close.1, none) := by
    unfold Logger.Close
    cases hFl : l.Flags with
    | none => rfl
    | some fs => rfl
  refine ⟨h, ?_, ?_⟩
  · rw [h]
  · rw [h]

/-! ## RemoveListeners -/

/-- C9, the code at a failing input: with an event still queued for the worker
of ("info", "a"), `RemoveListeners("info")` removes the flag entry and calls
`Stop` once on the worker but returns with its latch at Stopping and the event
undelivered, where `RemoveListener("info", "a")`, which waits on
`NotifyStopped`, returns with the latch at Stopped and the event delivered. -/
theorem RemoveListeners_returns_before_stopped :
    ((exampleRegistry.Trigger 0 (exampleEvent "info" 7)).RemoveListeners "info").HasListeners
        "info" = false
      ∧ ((((exampleRegistry.Trigger 0 (exampleEvent "info" 7)).RemoveListeners "info").Heap[0]?).map
          (fun w => (w.Stops, w.Latch.state, w.Work, w.Delivered)))
        = some (1, LatchState.Stopping, [exampleEvent "info" 7], [])
      ∧ ((((exampleRegistry.Trigger 0 (exampleEvent "info" 7)).RemoveListener "info" "a").Heap[0]?).map
          (fun w => (w.Stops, w.Latch.state, w.Work, w.Delivered)))
        = some (1, LatchState.Stopped, [], [exampleEvent "info" 7]) := by
  decide

/-! ## Write -/

/-- C10: with a formatter and a sink configured, `Write` runs the formatter on
the sink with the event once when the event has no writable-override or the
override answers true, and returns the logger unchanged when it answers false;
the flag set plays no part (replacing it commutes with `Write`), and the
registry and the workers are never touched. -/
theorem Write_gated_by_writable_only (l : Logger) (ctx : Context) (e : Event)
    (formatter : WriteFormatter) (output : List String)
    (hf : l.Formatter = some formatter) (ho : l.Output = some output) :
    (e.WritableProvider ≠ some false →
        (l.Write ctx e).Output = some (formatter.WriteFormat ctx output e).1)
      ∧ (e.WritableProvider = some false → l.Write ctx e = l)
      ∧ (∀ flags, ({ l with Flags := flags } : Logger).Write ctx e
          = { l.Write ctx e with Flags := flags })
      ∧ (l.Write ctx e).Flags = l.Flags
      ∧ (l.Write ctx e).Listeners = l.Listeners
      ∧ (l.Write ctx e).Heap = l.Heap := by
  unfold Logger.Write
  by_cases hw : e.WritableProvider = some false
  · simp [hw]
  · simp only [hw, if_false, hf, ho]
    rcases hfmt : formatter.WriteFormat ctx output e with ⟨output', err⟩
    cases err with
    | none => simp
    | some err =>
      cases hE : l.Errors with
      | none => simp
      | some errors => simp

/-- C10 at the example logger: "debug" is not enabled, and a "debug" event is
written all the same. -/
theorem Write_gated_by_writable_only_witness :
    exampleLogger.IsEnabled "debug" = false
      ∧ (exampleLogger.Write 0 (exampleEvent "debug" 1)).Output = some ["debug"] :=
  ⟨by decide,
    (Write_gated_by_writable_only exampleLogger 0 (exampleEvent "debug" 1) exampleFormatter []
      rfl rfl).1 (by decide)⟩

/-- C11: when `Write` formats an event (it is not vetoed by its writable-override
and a formatter and a sink are configured), an error returned by the formatter
is appended to the error channel when the channel is non-nil and is dropped
when it is nil, and when the formatter returns no error the channel is left as
it was.  `Write` has no result, so the error never reaches the caller. -/
theorem Write_forwards_error_to_channel (l : Logger) (ctx : Context) (e : Event)
    (formatter : WriteFormatter) (output : List String)
    (hf : l.Formatter = some formatter) (ho : l.Output = some output)
    (hw : e.WritableProvider ≠ some false) :
    (∀ err errors, (formatter.WriteFormat ctx output e).2 = some err →
        l.Errors = some errors → (l.Write ctx e).Errors = some (errors ++ [err]))
      ∧ (∀ err, (formatter.WriteFormat ctx output e).2 = some err →
        l.Errors = none → (l.Write ctx e).Errors = none)
      ∧ ((formatter.WriteFormat ctx output e).2 = none → (l.Write ctx e).Errors = l.Errors) := by
  unfold Logger.Write
  simp only [hw, if_false, hf, ho]
  rcases hfmt : formatter.WriteFormat ctx output e with ⟨output', err⟩
  cases err with
  | none => simp
  | some err =>
    cases hE : l.Errors with
    | none => simp
    | some errors => simp

/-- C11 at the example loggers: the formatter fails on payload 0; the error is
sent on the channel when there is one and dropped when there is none. -/
theorem Write_forwards_error_to_channel_witness :
    (exampleLoggerWithErrors.Write 0 (exampleEvent "info" 0)).Errors = some ["payload 0"]
      ∧ (exampleLoggerNoErrors.Write 0 (exampleEvent "info" 0)).Errors = none :=
  ⟨(Write_forwards_error_to_channel exampleLoggerWithErrors 0 (exampleEvent "info" 0)
      exampleFormatter [] rfl rfl (by decide)).1 "payload 0" [] rfl rfl,
    (Write_forwards_error_to_channel exampleLoggerNoErrors 0 (exampleEvent "info" 0)
      exampleFormatter [] rfl rfl (by decide)).2.1 "payload 0" rfl rfl⟩

/-! ## The read queries -/

/-- C17: in every registry state `HasListeners(F)` is true exactly when some
name n has `HasListener(F, n)` true, and both are false for every argument on
the nil registry.  Both queries only compute an answer: they return no logger,
so the registry is the one they were asked about. -/
theorem HasListeners_iff_exists_HasListener (l : Logger) (flag : String) :
    (l.HasListeners flag = true ↔ ∃ name, l.HasListener flag name = true)
      ∧ (l.Listeners = none →
          l.HasListeners flag = false ∧ ∀ name, l.HasListener flag name = false) := by
  constructor
  · constructor
    · intro h
      unfold Logger.HasListeners at h
      cases hL : l.Listeners with
      | none => simp [hL] at h
      | some ls =>
        cases hF : ls.lookup flag with
        | none => simp [hL, hF] at h
        | some inner =>
          simp only [hL, hF, decide_eq_true_eq] at h
          cases hent : inner.entries with
          | nil => simp [hent] at h
          | cons kv tl =>
            refine ⟨kv.1, ?_⟩
            have hmem : (⟨kv.1, kv.2⟩ : Sigma fun _ : String => Nat) ∈ inner.entries := by
              rw [hent]; exact List.mem_cons_self _ _
            have hlook : inner.lookup kv.1 = some kv.2 := by
              have := AList.mem_lookup_iff.mpr hmem
              simpa [Option.mem_def] using this
            rw [Logger.HasListener_eq_worker?]
            simp [Logger.worker?, hL, hF, hlook]
    · rintro ⟨name, h⟩
      rw [Logger.HasListener_eq_worker?] at h
      cases hw : l.worker? flag name with
      | none => simp [hw] at h
      | some p => exact Logger.HasListeners_of_worker? l flag name p hw
  · intro hL
    refine ⟨?_, fun name => ?_⟩
    · simp [Logger.HasListeners, hL]
    · simp [Logger.HasListener, hL]

/-! ## Drain -/

/-- The heap after `Drain`: every worker was drained once per entry of the
registry that points to it. -/
theorem Logger.Drain_heap (l : Logger) (q : Nat) :
    l.Drain.1.Heap[q]?
      = (l.Heap[q]?).map (Worker.Drain^[(l.registered.map (fun kv => kv.2)).count q]) := by
  unfold Logger.Drain Logger.registered
  cases hL : l.Listeners with
  | none => simp
  | some ls =>
    simp only
    rw [WorkerHeap.foldl_nested, WorkerHeap.foldl_call_getElem?]

theorem Logger.Drain_frame (l : Logger) :
    l.Drain.1.Listeners = l.Listeners ∧ l.Drain.1.Flags = l.Flags
      ∧ l.Drain.1.Latch = l.Latch ∧ l.Drain.1.Output = l.Output
      ∧ l.Drain.1.Errors = l.Errors :=
  ⟨rfl, rfl, rfl, rfl, rfl⟩

/-- Repeated `Drain` calls: the first empties the queue into the delivered
events, the later ones find it empty; the latch and the `Stop` count stay. -/
theorem Worker.iterate_Drain (w : Worker) (k : Nat) :
    Worker.Drain^[k + 1] w
      = { w with Delivered := w.Delivered ++ w.Work, Work := [], Drains := w.Drains + (k + 1) } := by
  induction k with
  | zero => rfl
  | succ k ih =>
    rw [Function.iterate_succ_apply', ih]
    simp [Worker.Drain, Nat.add_assoc]

theorem Worker.iterate_Drain_frame (w : Worker) (k : Nat) :
    (Worker.Drain^[k] w).Latch = w.Latch ∧ (Worker.Drain^[k] w).Stops = w.Stops
      ∧ (Worker.Drain^[k] w).Listener = w.Listener := by
  cases k with
  | zero => exact ⟨rfl, rfl, rfl⟩
  | succ k => rw [Worker.iterate_Drain]; exact ⟨rfl, rfl, rfl⟩

theorem Logger.registered_count_pos (l : Logger) (flag name : String) (p : Nat)
    (hreg : l.worker? flag name = some p) :
    ∃ k, (l.registered.map (fun kv => kv.2)).count p = k + 1 := by
  have hmem : p ∈ l.registered.map (fun kv => kv.2) :=
    List.mem_map.mpr ⟨⟨name, p⟩, l.worker?_mem_registered flag name p hreg, rfl⟩
  have hpos : 0 < (l.registered.map (fun kv => kv.2)).count p := List.count_pos_iff.mpr hmem
  exact ⟨(l.registered.map (fun kv => kv.2)).count p - 1, by omega⟩

/-- What a run of `Trigger` calls of one enabled flag, none vetoed, does to a
worker registered under that flag by one name. -/
theorem Logger.TriggerAll_heap (l : Logger) (ctx : Context) (flag name : String) (p : Nat)
    (w : Worker) (es : List Event)
    (hen : l.IsEnabled flag = true) (hreg : l.SoleName flag name p)
    (hw : l.Heap[p]? = some w)
    (hflag : ∀ e ∈ es, e.Flag = flag)
    (hveto : ∀ e ∈ es, e.EnabledProvider ≠ some false) :
    (l.TriggerAll ctx es).Heap[p]? = some { w with Work := w.Work ++ es } := by
  induction es generalizing l w with
  | nil => simpa [Logger.TriggerAll] using hw
  | cons e tl ih =>
    have hf : e.Flag = flag := hflag e (List.mem_cons_self _ _)
    have hv : e.EnabledProvider ≠ some false := hveto e (List.mem_cons_self _ _)
    have hframe := l.Trigger_frame ctx e
    have hen1 : (l.Trigger ctx e).IsEnabled flag = true := by
      rw [Logger.IsEnabled_congr l _ hframe.2.1]; exact hen
    have hreg1 : (l.Trigger ctx e).SoleName flag name p := by
      refine ⟨?_, ?_⟩
      · rw [Logger.worker?_congr l _ hframe.1]; exact hreg.1
      · intro m hm
        rw [Logger.worker?_congr l _ hframe.1] at hm
        exact hreg.2 m hm
    have hw1 : (l.Trigger ctx e).Heap[p]? = some (w.Submit e) := by
      have hen0 : l.IsEnabled e.Flag = true := by rw [hf]; exact hen
      rw [Logger.Trigger_heap l ctx e hen0 hv, hf, l.SoleName_count flag name p hreg, hw]
      rfl
    have hstep := ih (l.Trigger ctx e) (w.Submit e) hen1 hreg1 hw1
      (fun x hx => hflag x (List.mem_cons_of_mem _ hx))
      (fun x hx => hveto x (List.mem_cons_of_mem _ hx))
    have hrun : l.TriggerAll ctx (e :: tl) = (l.Trigger ctx e).TriggerAll ctx tl := rfl
    rw [hrun, hstep]
    simp [Worker.Submit]

theorem Logger.TriggerAll_listeners (l : Logger) (ctx : Context) (es : List Event) :
    (l.TriggerAll ctx es).Listeners = l.Listeners := by
  induction es generalizing l with
  | nil => rfl
  | cons e tl ih =>
    have hrun : l.TriggerAll ctx (e :: tl) = (l.Trigger ctx e).TriggerAll ctx tl := rfl
    rw [hrun, ih, (l.Trigger_frame ctx e).1]

/-- C12: after `Drain` every registered worker has an empty queue and its
listener has been handed, after what it had already received, the events that
were queued, in the order of their submission.  So after `Listen(F, n, cb)`
on a logger where F is enabled, any run of `Trigger` calls of events of flag F
(none vetoed) and `Drain`, the callback has received exactly those events in
that order. -/
theorem Drain_delivers_everything_queued (l : Logger) :
    (∀ (flag name : String) (p : Nat) (w : Worker),
        l.worker? flag name = some p → l.Heap[p]? = some w →
        ∃ w', l.Drain.1.Heap[p]? = some w' ∧ w'.Work = []
          ∧ w'.Delivered = w.Delivered ++ w.Work ∧ w'.Listener = w.Listener)
      ∧ (∀ (ctx : Context) (flag name : String) (cb : Listener) (es : List Event),
        l.IsEnabled flag = true → (∀ m, l.worker? flag m ≠ some l.Heap.length) →
        (∀ e ∈ es, e.Flag = flag) → (∀ e ∈ es, e.EnabledProvider ≠ some false) →
        ∃ w', ((l.Listen flag name cb).TriggerAll ctx es).Drain.1.Heap[l.Heap.length]? = some w'
          ∧ w'.Listener = cb ∧ w'.Delivered = es ∧ w'.Work = []) := by
  have hgen : ∀ (l : Logger) (flag name : String) (p : Nat) (w : Worker),
      l.worker? flag name = some p → l.Heap[p]? = some w →
      ∃ w', l.Drain.1.Heap[p]? = some w' ∧ w'.Work = []
        ∧ w'.Delivered = w.Delivered ++ w.Work ∧ w'.Listener = w.Listener := by
    intro l flag name p w hreg hw
    obtain ⟨k, hk⟩ := l.registered_count_pos flag name p hreg
    refine ⟨Worker.Drain^[k + 1] w, ?_, ?_, ?_, ?_⟩
    · rw [Logger.Drain_heap, hk, hw]; rfl
    · rw [Worker.iterate_Drain]
    · rw [Worker.iterate_Drain]
    · rw [Worker.iterate_Drain]
  refine ⟨hgen l, ?_⟩
  intro ctx flag name cb es hen hfresh hflag hveto
  have hreg : (l.Listen flag name cb).worker? flag name = some l.Heap.length := by
    rw [Logger.Listen_worker?]; simp
  have hsole : (l.Listen flag name cb).SoleName flag name l.Heap.length := by
    refine ⟨hreg, ?_⟩
    intro m hm
    by_contra hne
    rw [Logger.Listen_worker?] at hm
    simp only [hne, and_false, if_false] at hm
    exact hfresh m hm
  have hnew : (l.Listen flag name cb).Heap[l.Heap.length]? = some (NewWorker cb).Start := by
    rw [Logger.Listen_heap]; simp
  have hen1 : (l.Listen flag name cb).IsEnabled flag = true := by
    rw [Logger.IsEnabled_congr l (l.Listen flag name cb) rfl]; exact hen
  have hrun := Logger.TriggerAll_heap (l.Listen flag name cb) ctx flag name l.Heap.length
    (NewWorker cb).Start es hen1 hsole hnew hflag hveto
  have hreg1 : ((l.Listen flag name cb).TriggerAll ctx es).worker? flag name
      = some l.Heap.length := by
    rw [Logger.worker?_congr _ _ (Logger.TriggerAll_listeners _ ctx es)]; exact hreg
  obtain ⟨w', hw', hwork, hdel, hlis⟩ := hgen _ flag name l.Heap.length _ hreg1 hrun
  refine ⟨w', hw', ?_, ?_, hwork⟩
  · rw [hlis]; rfl
  · rw [hdel]; simp [NewWorker, Worker.Start]

/-- C12 at the example logger, the counter scenario: one listener under "info",
a hundred "info" events, `Drain`; the callback has received the hundred events
in the order they were triggered. -/
theorem Drain_delivers_everything_queued_witness :
    exampleLogger.IsEnabled "info" = true
      ∧ ((List.range 100).map (exampleEvent "info")).length = 100
      ∧ ∃ w', ((exampleLogger.Listen "info" "counter" 1).TriggerAll 0
            ((List.range 100).map (exampleEvent "info"))).Drain.1.Heap[exampleLogger.Heap.length]?
          = some w'
        ∧ w'.Listener = 1 ∧ w'.Delivered = (List.range 100).map (exampleEvent "info")
        ∧ w'.Work = [] :=
  ⟨by decide, by simp,
    (Drain_delivers_everything_queued exampleLogger).2 0 "info" "counter" 1
      ((List.range 100).map (exampleEvent "info")) (by decide)
      (by intro m h; simp [Logger.worker?, exampleLogger] at h)
      (by intro e he; simp only [List.mem_map] at he; obtain ⟨k, _, rfl⟩ := he; rfl)
      (by intro e he; simp only [List.mem_map] at he; obtain ⟨k, _, rfl⟩ := he
          simp [exampleEvent])⟩

/-- C13: `Drain` returns a nil error, calls `Drain` on every registered worker,
calls `Stop` on no worker and moves no latch, and leaves the registry and the
flag set as they were, so `HasListener`, `HasListeners` and `IsEnabled` answer
as before. -/
theorem Drain_stops_nothing (l : Logger) :
    l.Drain.2 = none
      ∧ (∀ (flag name : String) (p : Nat) (w : Worker),
          l.worker? flag name = some p → l.Heap[p]? = some w →
          ∃ w', l.Drain.1.Heap[p]? = some w' ∧ w.Drains < w'.Drains)
      ∧ (∀ (q : Nat) (w : Worker), l.Heap[q]? = some w →
          ∃ w', l.Drain.1.Heap[q]? = some w' ∧ w'.Stops = w.Stops ∧ w'.Latch = w.Latch)
      ∧ l.Drain.1.Listeners = l.Listeners
      ∧ l.Drain.1.Flags = l.Flags
      ∧ (∀ flag name, l.Drain.1.HasListener flag name = l.HasListener flag name)
      ∧ (∀ flag, l.Drain.1.HasListeners flag = l.HasListeners flag)
      ∧ (∀ flag, l.Drain.1.IsEnabled flag = l.IsEnabled flag) := by
  refine ⟨rfl, ?_, ?_, rfl, rfl, fun _ _ => rfl, fun _ => rfl, fun _ => rfl⟩
  · intro flag name p w hreg hw
    obtain ⟨k, hk⟩ := l.registered_count_pos flag name p hreg
    refine ⟨Worker.Drain^[k + 1] w, ?_, ?_⟩
    · rw [Logger.Drain_heap, hk, hw]; rfl
    · rw [Worker.iterate_Drain]; simp
  · intro q w hw
    refine ⟨Worker.Drain^[(l.registered.map (fun kv => kv.2)).count q] w, ?_, ?_, ?_⟩
    · rw [Logger.Drain_heap, hw]; rfl
    · exact (Worker.iterate_Drain_frame w _).2.1
    · exact (Worker.iterate_Drain_frame w _).1

/-! ## The registry invariant -/

theorem Logger.Write_listeners (l : Logger) (ctx : Context) (e : Event) :
    (l.Write ctx e).Listeners = l.Listeners := by
  unfold Logger.Write
  split
  · rfl
  · split
    · split <;> rfl
    · rfl

theorem GoMap.noEmpty_insert (ls : GoMap (GoMap Nat)) (flag : String) (inner : GoMap Nat)
    (hls : ∀ kv ∈ ls.entries, kv.2.entries ≠ []) (hinner : inner.entries ≠ []) :
    ∀ kv ∈ (ls.insert flag inner).entries, kv.2.entries ≠ [] := by
  intro kv hkv
  rw [AList.insert_entries] at hkv
  rcases List.mem_cons.mp hkv with h | h
  · rw [h]; exact hinner
  · exact hls kv ((List.kerase_sublist flag ls.entries).subset h)

theorem GoMap.noEmpty_erase (ls : GoMap (GoMap Nat)) (flag : String)
    (hls : ∀ kv ∈ ls.entries, kv.2.entries ≠ []) :
    ∀ kv ∈ (ls.erase flag).entries, kv.2.entries ≠ [] := by
  intro kv hkv
  exact hls kv ((List.kerase_sublist flag ls.entries).subset hkv)

theorem Logger.NoEmptyEntry_Listen (l : Logger) (flag name : String) (listener : Listener)
    (h : l.NoEmptyEntry) : (l.Listen flag name listener).NoEmptyEntry := by
  intro ls hls
  rw [Logger.Listen_listeners] at hls
  cases hls
  apply GoMap.noEmpty_insert
  · cases hL : l.Listeners with
    | none => intro kv hkv; simp at hkv
    | some ls0 => simpa using h ls0 hL
  · simp [AList.insert_entries]

theorem Logger.NoEmptyEntry_RemoveListener (l : Logger) (flag name : String)
    (h : l.NoEmptyEntry) : (l.RemoveListener flag name).NoEmptyEntry := by
  unfold Logger.RemoveListener
  cases hL : l.Listeners with
  | none => simpa using h
  | some ls =>
    cases hF : ls.lookup flag with
    | none => simpa [hF] using h
    | some inner =>
      cases hN : inner.lookup name with
      | none => simpa [hF, hN] using h
      | some worker =>
        simp only [hF, hN]
        by_cases hlen : (inner.erase name).entries.length = 0
        · simp only [hlen, if_true]
          intro ls1 hls1
          cases hls1
          exact GoMap.noEmpty_erase ls flag (h ls hL)
        · simp only [hlen, if_false]
          intro ls1 hls1
          cases hls1
          apply GoMap.noEmpty_insert ls flag _ (h ls hL)
          intro hnil
          exact hlen (by rw [hnil]; rfl)

theorem Logger.NoEmptyEntry_RemoveListeners (l : Logger) (flag : String)
    (h : l.NoEmptyEntry) : (l.RemoveListeners flag).NoEmptyEntry := by
  unfold Logger.RemoveListeners
  cases hL : l.Listeners with
  | none => simpa using h
  | some ls =>
    cases hF : ls.lookup flag with
    | none => simpa [hF] using h
    | some inner =>
      simp only [hF]
      intro ls1 hls1
      cases hls1
      exact GoMap.noEmpty_erase ls flag (h ls hL)

theorem Logger.NoEmptyEntry_of_listeners_eq (l l' : Logger) (heq : l'.Listeners = l.Listeners)
    (h : l.NoEmptyEntry) : l'.NoEmptyEntry := by
  intro ls hls
  rw [heq] at hls
  exact h ls hls

/-- Every operation keeps the registry free of empty flag entries. -/
theorem Logger.NoEmptyEntry_apply (l : Logger) (op : Op) (h : l.NoEmptyEntry) :
    (l.apply op).NoEmptyEntry := by
  cases op with
  | Listen flag name listener => exact l.NoEmptyEntry_Listen flag name listener h
  | RemoveListener flag name => exact l.NoEmptyEntry_RemoveListener flag name h
  | RemoveListeners flag => exact l.NoEmptyEntry_RemoveListeners flag h
  | Trigger ctx e =>
    exact Logger.NoEmptyEntry_of_listeners_eq l _ (l.Trigger_frame ctx e).1 h
  | Write ctx e => exact Logger.NoEmptyEntry_of_listeners_eq l _ (l.Write_listeners ctx e) h
  | Drain => exact Logger.NoEmptyEntry_of_listeners_eq l _ rfl h
  | Close =>
    intro ls hls
    exact Option.noConfusion (show (none : Option (GoMap (GoMap Nat))) = some ls from hls)

/-- C14: from a freshly created logger (its registry is the nil map, as `New`
leaves it), after any sequence of `Listen`, `RemoveListener`, `RemoveListeners`,
`Trigger`, `Write`, `Drain` and `Close` calls no flag key of the registry is
bound to an empty listener set: a flag that is present has a listener. -/
theorem registry_has_no_empty_entry (l : Logger) (ops : List Op) (hfresh : l.Listeners = none) :
    (l.run ops).NoEmptyEntry
      ∧ ∀ flag inner, (l.run ops).Listeners.bind (fun ls => ls.lookup flag) = some inner →
          (l.run ops).HasListeners flag = true := by
  have hinv : ∀ (ops : List Op) (l : Logger), l.NoEmptyEntry → (l.run ops).NoEmptyEntry := by
    intro ops
    induction ops with
    | nil => intro l h; exact h
    | cons op tl ih =>
      intro l h
      exact ih (l.apply op) (l.NoEmptyEntry_apply op h)
  have h0 : l.NoEmptyEntry := by
    intro ls hls
    rw [hfresh] at hls
    exact Option.noConfusion hls
  have hrun := hinv ops l h0
  refine ⟨hrun, ?_⟩
  intro flag inner hlook
  cases hL : (l.run ops).Listeners with
  | none => simp [hL] at hlook
  | some ls =>
    simp only [hL, Option.some_bind] at hlook
    have hmem : (⟨flag, inner⟩ : Sigma fun _ : String => GoMap Nat) ∈ ls.entries :=
      AList.mem_lookup_iff.mp (by simp [Option.mem_def, hlook])
    have hne := hrun ls hL ⟨flag, inner⟩ hmem
    unfold Logger.HasListeners
    simp only [hL, hlook, decide_eq_true_eq]
    exact List.length_pos.mpr hne

/-- C14 at the example logger: a listener is added and removed again, which
leaves no entry for its flag. -/
theorem registry_has_no_empty_entry_witness :
    exampleLogger.Listeners = none
      ∧ (exampleLogger.run [Op.Listen "info" "a" 1, Op.Listen "debug" "x" 2,
            Op.Trigger 0 (exampleEvent "info" 1), Op.RemoveListener "info" "a",
            Op.Drain]).NoEmptyEntry :=
  ⟨rfl,
    (registry_has_no_empty_entry exampleLogger [Op.Listen "info" "a" 1, Op.Listen "debug" "x" 2,
      Op.Trigger 0 (exampleEvent "info" 1), Op.RemoveListener "info" "a", Op.Drain] rfl).1⟩

/-! ## Listen on a pair that is already registered -/

theorem Logger.worker?_of_mem_registered (l : Logger) (name : String) (p : Nat)
    (h : (⟨name, p⟩ : Sigma fun _ : String => Nat) ∈ l.registered) :
    ∃ flag, l.worker? flag name = some p := by
  unfold Logger.registered at h
  cases hL : l.Listeners with
  | none => simp [hL] at h
  | some ls =>
    simp only [hL, List.mem_flatMap] at h
    obtain ⟨kv, hkv, hin⟩ := h
    refine ⟨kv.1, ?_⟩
    have h1 : ls.lookup kv.1 = some kv.2 := by
      have := AList.mem_lookup_iff.mpr (show (⟨kv.1, kv.2⟩ : Sigma fun _ : String => GoMap Nat)
        ∈ ls.entries from hkv)
      simpa [Option.mem_def] using this
    have h2 : kv.2.lookup name = some p := by
      have := AList.mem_lookup_iff.mpr hin
      simpa [Option.mem_def] using this
    simp [Logger.worker?, hL, h1, h2]

/-- A pointer that no pair of the registry holds is left alone by `Close`. -/
theorem Logger.Close_heap_unregistered (l : Logger) (p : Nat)
    (h : ∀ g m, l.worker? g m ≠ some p) : l.Close.1.Heap[p]? = l.Heap[p]? := by
  rw [Logger.Close_heap]
  have hzero : (l.registered.map (fun kv => kv.2)).count p = 0 := by
    apply count_snd_eq_zero
    intro m hm
    obtain ⟨g, hg⟩ := l.worker?_of_mem_registered m p hm
    exact h g m hg
  rw [hzero]
  cases l.Heap[p]? <;> rfl

/-- C15: when (F, n) is already registered with worker w, `Listen(F, n, listener)`
binds the pair to a new worker distinct from w and calls nothing on w: w is as
it was (its latch and its count of `Stop` calls included, so a started w stays
started) and no pair of the registry points to it any more, and a later
`RemoveListener(F, n)` or `Close` stops the new worker and leaves w as it was. -/
theorem Listen_replace_leaves_old_worker_running (l : Logger) (flag name : String) (p : Nat)
    (w : Worker) (listener : Listener)
    (hreg : l.worker? flag name = some p) (hw : l.Heap[p]? = some w)
    (honly : ∀ g m, l.worker? g m = some p → g = flag ∧ m = name) :
    (l.Listen flag name listener).worker? flag name = some l.Heap.length
      ∧ l.Heap.length ≠ p
      ∧ (l.Listen flag name listener).Heap[p]? = some w
      ∧ (∀ g m, (l.Listen flag name listener).worker? g m ≠ some p)
      ∧ ((l.Listen flag name listener).RemoveListener flag name).Heap[p]? = some w
      ∧ ((l.Listen flag name listener).RemoveListener flag name).Heap[l.Heap.length]?
          = some (NewWorker listener).Start.Stop.NotifyStopped
      ∧ (l.Listen flag name listener).Close.1.Heap[p]? = some w
      ∧ (∃ w', (l.Listen flag name listener).Close.1.Heap[l.Heap.length]? = some w'
          ∧ w'.Latch.state = LatchState.Stopped) := by
  have hlt : p < l.Heap.length := (List.getElem?_eq_some_iff.mp hw).1
  have hne : l.Heap.length ≠ p := by omega
  have _hwas : l.HasListener flag name = true := by
    rw [Logger.HasListener_eq_worker?, hreg]; rfl
  have hnew : (l.Listen flag name listener).worker? flag name = some l.Heap.length := by
    rw [Logger.Listen_worker?]; simp
  have hold : (l.Listen flag name listener).Heap[p]? = some w := by
    rw [Logger.Listen_heap, List.getElem?_append_left hlt]; exact hw
  have hnewW : (l.Listen flag name listener).Heap[l.Heap.length]?
      = some (NewWorker listener).Start := by
    rw [Logger.Listen_heap]; simp
  have hgone : ∀ g m, (l.Listen flag name listener).worker? g m ≠ some p := by
    intro g m hgm
    rw [Logger.Listen_worker?] at hgm
    by_cases hc : g = flag ∧ m = name
    · rw [if_pos hc] at hgm
      exact hne (Option.some.inj hgm)
    · rw [if_neg hc] at hgm
      exact hc (honly g m hgm)
  refine ⟨hnew, hne, hold, hgone, ?_, ?_, ?_, ?_⟩
  · rw [Logger.RemoveListener_heap _ flag name _ hnew, WorkerHeap.stopWait_getElem?,
      if_neg (fun h => hne h.symm)]
    exact hold
  · rw [Logger.RemoveListener_heap _ flag name _ hnew, WorkerHeap.stopWait_getElem?,
      if_pos rfl, hnewW]
    rfl
  · rw [Logger.Close_heap_unregistered _ p hgone]; exact hold
  · obtain ⟨k, hk⟩ := (l.Listen flag name listener).registered_count_pos flag name _ hnew
    refine ⟨(fun w => w.Stop.NotifyStopped)^[k + 1] (NewWorker listener).Start, ?_, ?_⟩
    · rw [Logger.Close_heap, hk, hnewW]; rfl
    · exact (Worker.iterate_stopWait _ k).1

theorem Logger.flag_mem_keys_of_worker? (l : Logger) (flag name : String) (p : Nat)
    (h : l.worker? flag name = some p) :
    flag ∈ (l.Listeners.map AList.keys).getD [] := by
  unfold Logger.worker? at h
  cases hL : l.Listeners with
  | none => simp [hL] at h
  | some ls =>
    cases hF : ls.lookup flag with
    | none => simp [hL, hF] at h
    | some inner =>
      simp only [Option.map_some', Option.getD_some]
      rw [← AList.mem_keys, ← AList.lookup_isSome, hF]
      rfl

/-- In the example registry worker 0 is held by the pair ("info", "a") only. -/
theorem exampleRegistry_worker_zero (g m : String)
    (h : exampleRegistry.worker? g m = some 0) : g = "info" ∧ m = "a" := by
  have hk := Logger.flag_mem_keys_of_worker? exampleRegistry g m 0 h
  have hkeys : (exampleRegistry.Listeners.map AList.keys).getD [] = ["debug", "info"] := by
    decide
  rw [hkeys] at hk
  simp only [List.mem_cons, List.mem_singleton, List.not_mem_nil, or_false] at hk
  rw [Logger.worker?_iff_mem_snapshot] at h
  rcases hk with rfl | rfl
  · have hs : exampleRegistry.snapshot "debug" = [⟨"x", 2⟩] := by decide
    rw [hs] at h
    simp at h
  · have hs : exampleRegistry.snapshot "info" = [⟨"b", 1⟩, ⟨"a", 0⟩] := by decide
    rw [hs] at h
    simp at h
    exact ⟨rfl, h⟩

/-- C15 at the example registry: listening again on ("info", "a") leaves the
started worker 0 as it is, and `Close` afterwards does not stop it. -/
theorem Listen_replace_leaves_old_worker_running_witness :
    exampleRegistry.worker? "info" "a" = some 0
      ∧ (exampleRegistry.Listen "info" "a" 9).worker? "info" "a" = some 3
      ∧ (exampleRegistry.Listen "info" "a" 9).Heap[0]? = some (NewWorker 1).Start
      ∧ (exampleRegistry.Listen "info" "a" 9).Close.1.Heap[0]? = some (NewWorker 1).Start
      ∧ (NewWorker 1).Start.Latch.state = LatchState.Started :=
  ⟨by decide,
    (Listen_replace_leaves_old_worker_running exampleRegistry "info" "a" 0 (NewWorker 1).Start 9
      (by decide) (by decide) exampleRegistry_worker_zero).1,
    (Listen_replace_leaves_old_worker_running exampleRegistry "info" "a" 0 (NewWorker 1).Start 9
      (by decide) (by decide) exampleRegistry_worker_zero).2.2.1,
    (Listen_replace_leaves_old_worker_running exampleRegistry "info" "a" 0 (NewWorker 1).Start 9
      (by decide) (by decide) exampleRegistry_worker_zero).2.2.2.2.2.2.1,
    rfl⟩

/-! ## Lock discipline -/

theorem Access.guardedFrom_held (xs ys : List Access)
    (h : ∀ x ∈ xs, x = Access.Map ∨ x = Access.Call) :
    Access.guardedFrom true (xs ++ ys) = Access.guardedFrom true ys := by
  induction xs with
  | nil => rfl
  | cons x tl ih =>
    have htl := ih (fun y hy => h y (List.mem_cons_of_mem _ hy))
    rcases h x (List.mem_cons_self _ _) with rfl | rfl
    · simp [Access.guardedFrom, htl]
    · simp [Access.guardedFrom, htl]

/-- An operation that locks, then only touches the map and workers, then
unlocks, does all its map accesses under the lock. -/
theorem Access.guarded_locked (body : List Access)
    (h : ∀ x ∈ body, x = Access.Map ∨ x = Access.Call) :
    Access.guarded ([Access.Lock, Access.Map] ++ body ++ [Access.Unlock]) = true := by
  have h1 : Access.guarded ([Access.Lock, Access.Map] ++ body ++ [Access.Unlock])
      = Access.guardedFrom true (body ++ [Access.Unlock]) := by
    simp [Access.guarded, Access.guardedFrom]
  rw [h1, Access.guardedFrom_held body _ h]
  rfl

/-- C16, the code against the claim: `HasListeners`, `HasListener`, `Listen`,
`RemoveListeners`, `RemoveListener` and the lookup of `Trigger` do every map
access between `Lock` and `Unlock`, in every state; `Close` and `Drain` take no
lock, so in every state their first access to the map is made without it. -/
theorem Close_and_Drain_access_map_unlocked :
    (∀ (l : Logger) (flag : String), Access.guarded (l.HasListenersAccesses flag) = true)
      ∧ (∀ (l : Logger) (flag name : String),
          Access.guarded (l.HasListenerAccesses flag name) = true)
      ∧ (∀ l : Logger, Access.guarded l.ListenAccesses = true)
      ∧ (∀ (l : Logger) (flag : String), Access.guarded (l.RemoveListenersAccesses flag) = true)
      ∧ (∀ (l : Logger) (flag name : String),
          Access.guarded (l.RemoveListenerAccesses flag name) = true)
      ∧ (∀ l : Logger, Access.guarded l.TriggerLookupAccesses = true)
      ∧ (∀ l : Logger, Access.guarded l.CloseAccesses = false)
      ∧ (∀ l : Logger, Access.guarded l.DrainAccesses = false) := by
  refine ⟨?_, ?_, ?_, ?_, ?_, ?_, ?_, ?_⟩
  · intro l flag
    unfold Logger.HasListenersAccesses
    apply Access.guarded_locked
    intro x hx
    split at hx
    · simp at hx
    · split at hx <;> simp at hx <;> simp [hx]
  · intro l flag name
    unfold Logger.HasListenerAccesses
    apply Access.guarded_locked
    intro x hx
    split at hx
    · simp at hx
    · split at hx <;> simp at hx <;> simp [hx]
  · intro l
    unfold Logger.ListenAccesses
    rw [List.append_assoc ([Access.Lock, Access.Map]) _ _]
    apply Access.guarded_locked
    intro x hx
    rw [List.mem_append] at hx
    rcases hx with hx | hx
    · split at hx <;> simp at hx
      simp [hx]
    · simp at hx
      rcases hx with rfl | rfl <;> simp
  · intro l flag
    unfold Logger.RemoveListenersAccesses
    apply Access.guarded_locked
    intro x hx
    split at hx
    · simp at hx
    · split at hx
      · simp at hx; simp [hx]
      · simp only [List.mem_cons, List.mem_append, List.mem_flatMap, List.mem_singleton,
          List.not_mem_nil, or_false] at hx
        rcases hx with rfl | ⟨_, _, rfl | rfl⟩ | rfl <;> simp
  · intro l flag name
    unfold Logger.RemoveListenerAccesses
    apply Access.guarded_locked
    intro x hx
    split at hx
    · simp at hx
    · split at hx
      · simp at hx; simp [hx]
      · split at hx
        · simp at hx; simp [hx]
        · split at hx <;> simp at hx <;> rcases hx with rfl | rfl | rfl | h <;> simp_all
  · intro l
    unfold Logger.TriggerLookupAccesses
    apply Access.guarded_locked
    intro x hx
    split at hx <;> simp at hx
    simp [hx]
  · intro l
    simp [Logger.CloseAccesses, Access.guarded, Access.guardedFrom]
  · intro l
    simp [Logger.DrainAccesses, Access.guarded, Access.guardedFrom]

end logger
